import Mathlib

/-!
Shallow embedding of `src/generate_dataset.py` (defects_segmentation_tools).

Conventions of the embedding:
* Python `str` values are Lean `String`s; where character-level reasoning is
  needed (manifest files, path components) we work on `String.data : List Char`.
* Python `float` ratio arithmetic is embedded over `ℚ`; `int(x)` is embedded
  as truncation toward zero (`pyInt`).
* Python list slicing `l[a:b]` / `l[a:]` (with negative-index wrap-around and
  clamping) is embedded by `pySlice` / `pySliceFrom` via `pyBound`.
* The filesystem is a parameter: a `Filesystem` maps a directory path to the
  list of entry names that live in it (consumed by the embedded
  `glob(os.path.join(dir, "*.png"))` + `os.path.basename` combination).
* File-writing helpers (`save_text`, `save_json`, `copyfile`, `cv2.imwrite`)
  are embedded as functions returning the path/content pairs they would write.
* `find_defects` (package `defects_segmentation.defects`, outside `src/`) is
  the external collaborator of spec §6 and is a function parameter, as is the
  point-in-contour test used by the rasterizer.
-/

/-- Python slice bound normalisation for a sequence of length `n`: a negative
index is first shifted by `n`, then the result is clamped into `[0, n]`. -/
def pyBound (n : ℕ) (i : ℤ) : ℕ :=
  min (if i < 0 then i + n else i).toNat n

/-- Python `l[a:b]` (step 1). -/
def pySlice {α : Type} (l : List α) (a b : ℤ) : List α :=
  (l.take (pyBound l.length b)).drop (pyBound l.length a)

/-- Python `l[a:]`. -/
def pySliceFrom {α : Type} (l : List α) (a : ℤ) : List α :=
  l.drop (pyBound l.length a)

/-- Python `l[:b]`. -/
def pySliceTo {α : Type} (l : List α) (b : ℤ) : List α :=
  l.take (pyBound l.length b)

/-- Python `int()` applied to a rational: truncation toward zero. -/
def pyInt (q : ℚ) : ℤ :=
  if q < 0 then ⌈q⌉ else ⌊q⌋

/-- Python `os.path.join(a, b)` (POSIX): an absolute `b` wins; otherwise a
separator is inserted unless `a` is empty or already ends with one. -/
def pyJoin (a b : String) : String :=
  if b.data.head? = some '/' then b
  else if a.data = [] then b
  else if a.data.getLast? = some '/' then a ++ b
  else a ++ "/" ++ b

/-- Python `os.path.split(p)[-1]`: the part of `p` after the last `'/'`
(empty when `p` ends with a separator). -/
def pySplitLast (p : String) : String :=
  String.mk (((p.data.splitOn '/').getLast?).getD [])

/-- Python `os.path.splitext(name)[0]` for a bare file name (no separator):
everything before the last `'.'`, except that a name whose part before the
last dot consists only of dots (e.g. `".bashrc"`, `"..png"`) is not split. -/
def pySplitExtRoot (name : String) : String :=
  let parts := name.data.splitOn '.'
  if parts.length ≤ 1 then name
  else if parts.dropLast.all (fun p => p.isEmpty) then name
  else String.mk (List.intercalate ['.'] parts.dropLast)

/-! Constants of `generate_dataset.py` (lines 17-24). -/

def LABEL_NAME : String := "defect"

def LABEL_ID : ℕ := 1

def SPLITS : List String := ["train", "val", "test"]

/-! Pair discovery (`search_images`, `search_image_triplets`, lines 83-100). -/

/-- Abstract directory listing: the names of the entries of each directory.
Modelled from the spec: the on-disk input tree of §6 is outside the program;
`glob` consults it. -/
def Filesystem : Type := String → List String

/-- Whether `glob(dir + "/*.png")` matches an entry called `nm`: the name must
end in `".png"` and (glob's dot-file rule for `*`) must not start with `'.'`. -/
def glob_matches_png (nm : String) : Bool :=
  ['.', 'p', 'n', 'g'].isSuffixOf nm.data && !(nm.data.head? == some '.')

/-- `search_images` (lines 83-87): basenames of the `*.png` glob matches in a
directory. -/
def search_images (fs : Filesystem) (imgs_dir : String) : List String :=
  (fs imgs_dir).filter glob_matches_png

/-- Insertion step of the embedding of Python `sorted` on strings. -/
def insertStr (x : String) : List String → List String
  | [] => [x]
  | y :: ys => if x ≤ y then x :: y :: ys else y :: insertStr x ys

/-- Python `sorted` on a list of strings (insertion sort; extensionally equal
to any stable sort since equal strings are identical). -/
def sortStrings : List String → List String
  | [] => []
  | x :: xs => insertStr x (sortStrings xs)

/-- One discovered triplet: `(collection_id, clean_dir, noisy_dir, img_name)`. -/
abbrev Triplet := String × String × String × String

instance : Inhabited Triplet := ⟨("", "", "", "")⟩

/-- `search_image_triplets` (lines 90-100): intersection, by name, of the
`*.png` entries of the `clean` and `noisy` subdirectories of a root, sorted;
`sorted(list(set(a) & set(b)))` is embedded as sorting the deduplicated
list-intersection. -/
def search_image_triplets (fs : Filesystem) (imgs_root : String) : List Triplet :=
  let collection_id := pySplitLast imgs_root
  let clean_dir := pyJoin imgs_root "clean"
  let noisy_dir := pyJoin imgs_root "noisy"
  let img_clean_names := search_images fs clean_dir
  let img_noisy_names := search_images fs noisy_dir
  let img_names := sortStrings ((img_clean_names.inter img_noisy_names).dedup)
  img_names.map (fun n => (collection_id, clean_dir, noisy_dir, n))

/-! Dataset partitioning (`split_dataset`, lines 103-124). The Python dict
`dataset` (keyed by the pairwise-distinct split names, in insertion order) is
embedded as the association list of `(split, assigned pairs)` in that order. -/

/-- Loop body of `split_dataset` (lines 110-122): `splitIdx` is the
`enumerate` counter, `start_idx` the running cursor. -/
def split_go {α : Type} [Inhabited α] (img_triplets : List α)
    (triplet_indices : List ℕ) (triplets_len numSplits splitIdx : ℕ)
    (start_idx : ℤ) : List (String × ℚ) → List (String × List α)
  | [] => []
  | (split, split_ratio) :: rest =>
    let split_len : ℤ := pyInt ((triplets_len : ℚ) * split_ratio)
    let split_triplet_indices :=
      if splitIdx = numSplits - 1 then pySliceFrom triplet_indices start_idx
      else pySlice triplet_indices start_idx (start_idx + split_len)
    (split, split_triplet_indices.map (fun i => img_triplets.getD i default)) ::
      split_go img_triplets triplet_indices triplets_len numSplits (splitIdx + 1)
        (start_idx + split_len) rest

/-- `split_dataset` (lines 103-124). Split names beyond the length of the
ratio list keep their initial empty assignment (line 106). -/
def split_dataset {α : Type} [Inhabited α] (img_triplets : List α)
    (splits : List String) (split_ratios : List ℚ) : List (String × List α) :=
  let triplet_indices := List.range img_triplets.length
  let zipped := splits.zip split_ratios
  split_go img_triplets triplet_indices triplet_indices.length splits.length 0 0 zipped
    ++ (splits.drop zipped.length).map (fun s => (s, ([] : List α)))

/-! Annotation generation (`gen_defects`, lines 127-181). Filesystem writes
(`copyfile`, `save_json`, `cv2.imwrite`) are embedded by returning, per
processed triplet, the artifact paths and contents they would write. -/

/-- `img_id` (line 136): `"{}_{}".format(collection_id, splitext(img_name)[0])`. -/
def img_id_of (collection_id img_name : String) : String :=
  collection_id ++ "_" ++ pySplitExtRoot img_name

/-- `raw_img_path` (lines 137-140). -/
def raw_img_path (output_imgs_dir collection_id img_name : String) : String :=
  pyJoin output_imgs_dir (img_id_of collection_id img_name ++ "_leftImg8bit.png")

/-- `label_dict_path` (lines 141-144). -/
def label_dict_path (output_labels_dir collection_id img_name : String) : String :=
  pyJoin output_labels_dir (img_id_of collection_id img_name ++ "_polygons.json")

/-- `label_img_path` (lines 145-148). -/
def label_img_path (output_labels_dir collection_id img_name : String) : String :=
  pyJoin output_labels_dir (img_id_of collection_id img_name ++ "_labelIds.png")

/-- An image: spatial dimensions plus a pixel grid (channel structure of the
BGR images is abstracted to one value per pixel). -/
@[ext] structure Img where
  height : ℕ
  width : ℕ
  pix : ℕ → ℕ → ℕ

/-- `np.zeros_like` on an image. -/
def zeros_like (img : Img) : Img := ⟨img.height, img.width, fun _ _ => 0⟩

/-- The all-background image of the given dimensions. -/
def all_background (height width : ℕ) : Img := ⟨height, width, fun _ _ => 0⟩

/-- A polygon contour, as the `reshape(-1, 2).tolist()` point list. -/
abbrev Contour := List (ℤ × ℤ)

/-- Modelled from the spec: `cv2.drawContours(canvas, contours, -1, v, -1)`
(outside `src/`) rasterizes every contour filled at value `v` onto the
canvas (§4.3); the point-in-region test `inside` is the out-of-scope
geometric detail (§1). With zero contours the canvas is returned unchanged. -/
def drawContours (inside : Contour → ℕ → ℕ → Bool) (canvas : Img)
    (contours : List Contour) (v : ℕ) : Img :=
  ⟨canvas.height, canvas.width,
   fun y x => if contours.any (fun c => inside c y x) then v else canvas.pix y x⟩

/-- The artifacts produced for one triplet by the loop body of `gen_defects`
(lines 132-179): the three artifact paths, the polygon document fields
(`imgHeight`, `imgWidth`, `objects`), and the rasterized label image. -/
structure DefectRecord where
  raw_img_file : String
  label_dict_file : String
  label_img_file : String
  imgHeight : ℕ
  imgWidth : ℕ
  objects : List (String × Contour)
  label_img : Img

/-- Loop body of `gen_defects` for one triplet. `find_defects` is the
defect-detection collaborator (package code outside `src/`, spec §6),
`imread` the image decoder. -/
def gen_defects_record (find_defects : Img → Img → List Contour)
    (inside : Contour → ℕ → ℕ → Bool) (imread : String → Img)
    (out_imgs_dir out_labels_dir : String) (tr : Triplet) : DefectRecord :=
  let img_clean_path := pyJoin tr.2.1 tr.2.2.2
  let img_noisy_path := pyJoin tr.2.2.1 tr.2.2.2
  let img_clean := imread img_clean_path
  let img_noisy := imread img_noisy_path
  let contours := find_defects img_clean img_noisy
  { raw_img_file := raw_img_path out_imgs_dir tr.1 tr.2.2.2,
    label_dict_file := label_dict_path out_labels_dir tr.1 tr.2.2.2,
    label_img_file := label_img_path out_labels_dir tr.1 tr.2.2.2,
    imgHeight := img_clean.height,
    imgWidth := img_clean.width,
    objects := contours.map (fun c => (LABEL_NAME, c)),
    label_img := drawContours inside (zeros_like img_noisy) contours LABEL_ID }

/-- The `(raw_img_path, label_img_path)` pair appended to `path_pairs` for one
triplet (line 179). -/
def triplet_path_pair (out_imgs_dir out_labels_dir : String) (tr : Triplet) :
    String × String :=
  (raw_img_path out_imgs_dir tr.1 tr.2.2.2, label_img_path out_labels_dir tr.1 tr.2.2.2)

/-! Manifest writing (`gen_lst`, lines 184-190) and the per-split output
directories of `gen_dataset` (lines 193-215). -/

/-- `gen_lst`: the written file as a `(path, contents)` pair; the contents are
the character sequence `"\n".join("{}\t{}".format(r, l) for pairs)`. -/
def gen_lst (path_pairs : List (String × String)) (output_dir split : String) :
    String × List Char :=
  (pyJoin output_dir (split ++ ".lst"),
   List.intercalate ['\n'] (path_pairs.map (fun p => p.1.data ++ '\t' :: p.2.data)))

/-- `output_imgs_dir` of `gen_dataset` (lines 197-201). -/
def output_imgs_dir (split : String) : String :=
  pyJoin (pyJoin "leftImg8bit" LABEL_NAME) split

/-- `output_labels_dir` of `gen_dataset` (lines 202-206). -/
def output_labels_dir (split : String) : String :=
  pyJoin (pyJoin "gtFine" LABEL_NAME) split

/-- `output_lst_dir` of `gen_dataset` (line 194). -/
def output_lst_dir (output_root : String) : String := pyJoin output_root "list"

/-! The orchestrator (`main`, lines 218-239). `random.seed`/`random.shuffle`
(Python stdlib Mersenne Twister, outside `src/`) is deterministic given the
seed; it enters the embedding as a shuffle function parameter — a seed-indexed
family `ℤ → List Triplet → List Triplet` of permutations, applied exactly once
(line 231) before the optional cap (lines 233-234) and the partition. -/

/-- Pure core of `main`: the per-split assignments and, per split, the
manifest file `gen_dataset` would write for it (annotation artifacts per
pair are covered by `gen_defects_record`). `limit` is `args.limit`. -/
def main_pipeline (shuffle : List Triplet → List Triplet) (imgs_dirs : List String)
    (fs : Filesystem) (val test : ℚ) (limit : Option ℤ) (output : String) :
    List (String × List Triplet) × List (String × (String × List Char)) :=
  let split_ratios := [1 - val - test, val, test]
  let pool0 := (imgs_dirs.map (fun d => search_image_triplets fs d)).flatten
  let pool1 := shuffle pool0
  let pool2 := match limit with
    | none => pool1
    | some l => pySliceTo pool1 l
  let dataset := split_dataset pool2 SPLITS split_ratios
  (dataset,
   dataset.map (fun st =>
     (st.1,
      gen_lst (st.2.map (fun tr =>
          triplet_path_pair (output_imgs_dir st.1) (output_labels_dir st.1) tr))
        (output_lst_dir output) st.1)))

/-! Concrete fixtures used by closed evaluation and witness theorems. -/

/-- A filesystem whose every directory holds exactly one entry `x.png`. -/
def fs_single_png : Filesystem := fun _ => ["x.png"]

/-- A concrete deterministic seed-indexed shuffle family (stand-in for the
seeded Mersenne Twister in closed instantiations). -/
def shuffle_family_rev : ℤ → List Triplet → List Triplet := fun _ l => l.reverse

/-- A collaborator returning no contours, and a trivial point test. -/
def find_defects_none : Img → Img → List Contour := fun _ _ => []

def inside_never : Contour → ℕ → ℕ → Bool := fun _ _ _ => false

/-- A constant image decoder. -/
def imread_const : String → Img := fun _ => ⟨2, 3, fun _ _ => 7⟩

/-- A pair from a collection `a` with file name `b_c.png`. -/
def pair_collection_a : Triplet := ("a", "a/clean", "a/noisy", "b_c.png")

/-- A distinct pair, from a collection `a_b` with file name `c.png`. -/
def pair_collection_a_b : Triplet := ("a_b", "a_b/clean", "a_b/noisy", "c.png")

/-! Helper lemmas about the slice embedding. -/

lemma pyBound_le (n : ℕ) (i : ℤ) : pyBound n i ≤ n := min_le_right _ _

lemma pyBound_zero (n : ℕ) : pyBound n 0 = 0 := by simp [pyBound]

lemma pyBound_of_nonneg {i : ℤ} (h : 0 ≤ i) (n : ℕ) : pyBound n i = min i.toNat n := by
  rw [pyBound, if_neg (not_lt.2 h)]

lemma pyBound_mono {i j : ℤ} (hi : 0 ≤ i) (hij : i ≤ j) (n : ℕ) :
    pyBound n i ≤ pyBound n j := by
  rw [pyBound_of_nonneg hi, pyBound_of_nonneg (le_trans hi hij)]
  exact min_le_min (Int.toNat_le_toNat hij) le_rfl

lemma pySlice_range_map {α : Type} [Inhabited α] (pool : List α) (a b : ℤ) :
    (pySlice (List.range pool.length) a b).map (fun i => pool[i]?.getD default) =
      pySlice pool a b := by
  apply List.ext_getElem
  · simp [pySlice]
  · intro i h1 h2
    simp only [pySlice, List.length_range, List.getElem_map, List.getElem_drop,
      List.getElem_take, List.getElem_range] at h1 h2 ⊢
    have h2' : i < min (pyBound pool.length b) pool.length - pyBound pool.length a := by
      simpa using h2
    have hb : pyBound pool.length a + i < pool.length := by omega
    simp [List.getElem?_eq_getElem hb]

lemma pySliceFrom_range_map {α : Type} [Inhabited α] (pool : List α) (a : ℤ) :
    (pySliceFrom (List.range pool.length) a).map (fun i => pool[i]?.getD default) =
      pySliceFrom pool a := by
  apply List.ext_getElem
  · simp [pySliceFrom]
  · intro i h1 h2
    simp only [pySliceFrom, List.length_range, List.getElem_map, List.getElem_drop,
      List.getElem_range] at h1 h2 ⊢
    have h2' : i < pool.length - pyBound pool.length a := by simpa using h2
    have hb : pyBound pool.length a + i < pool.length := by omega
    simp [List.getElem?_eq_getElem hb]

/-- Closed form of `split_dataset` on the program's three splits: the loop
takes slices `[0:k0]`, `[k0:k0+k1]`, `[k0+k1:]` of the pool, where the `ki`
are the truncated products of pool size and ratio. No side conditions —
this is the unfolding of the loop for any ratio values. -/
lemma split_dataset_eq3 {α : Type} [Inhabited α] (pool : List α) (r0 r1 r2 : ℚ) :
    split_dataset pool SPLITS [r0, r1, r2] =
      [("train", pySlice pool 0 (pyInt ((pool.length : ℚ) * r0))),
       ("val", pySlice pool (pyInt ((pool.length : ℚ) * r0))
          (pyInt ((pool.length : ℚ) * r0) + pyInt ((pool.length : ℚ) * r1))),
       ("test", pySliceFrom pool
          (pyInt ((pool.length : ℚ) * r0) + pyInt ((pool.length : ℚ) * r1)))] := by
  simp [split_dataset, SPLITS, split_go, pySlice_range_map, pySliceFrom_range_map]

lemma drop_eq_take_drop_append {α : Type} (l : List α) (a b : ℕ)
    (hab : a ≤ b) (hb : b ≤ l.length) :
    (l.take b).drop a ++ l.drop b = l.drop a := by
  conv_rhs => rw [← List.take_append_drop b l]
  rw [List.drop_append_eq_append_drop, List.length_take, min_eq_left hb,
    Nat.sub_eq_zero_of_le hab, List.drop_zero]

lemma pySlice_append_pySliceFrom {α : Type} (l : List α) (a b : ℤ)
    (ha : 0 ≤ a) (hab : a ≤ b) :
    pySlice l a b ++ pySliceFrom l b = pySliceFrom l a :=
  drop_eq_take_drop_append l (pyBound l.length a) (pyBound l.length b)
    (pyBound_mono ha hab l.length) (pyBound_le _ _)

lemma pyInt_nonneg {q : ℚ} (h : 0 ≤ q) : 0 ≤ pyInt q := by
  rw [pyInt, if_neg (not_lt.2 h)]
  exact Int.le_floor.2 (by exact_mod_cast h)

lemma pyInt_of_nonneg {q : ℚ} (h : 0 ≤ q) : pyInt q = ⌊q⌋ := by
  rw [pyInt, if_neg (not_lt.2 h)]

lemma length_pySlice {α : Type} (l : List α) (a b : ℤ) :
    (pySlice l a b).length = pyBound l.length b - pyBound l.length a := by
  rw [pySlice, List.length_drop, List.length_take,
    min_eq_left (pyBound_le l.length b)]

lemma length_pySliceFrom {α : Type} (l : List α) (a : ℤ) :
    (pySliceFrom l a).length = l.length - pyBound l.length a := by
  rw [pySliceFrom, List.length_drop]

lemma floor_add_floor_le_self {n : ℕ} {r0 r1 : ℚ} (h01 : r0 + r1 ≤ 1) :
    ⌊(n : ℚ) * r0⌋ + ⌊(n : ℚ) * r1⌋ ≤ (n : ℤ) := by
  have hsum : (n : ℚ) * r0 + (n : ℚ) * r1 ≤ (n : ℚ) := by
    calc (n : ℚ) * r0 + (n : ℚ) * r1 = (n : ℚ) * (r0 + r1) := by ring
    _ ≤ (n : ℚ) * 1 := mul_le_mul_of_nonneg_left h01 (Nat.cast_nonneg n)
    _ = (n : ℚ) := mul_one _
  have h1 : ⌊(n : ℚ) * r0⌋ + ⌊(n : ℚ) * r1⌋ ≤ ⌊(n : ℚ) * r0 + (n : ℚ) * r1⌋ := by
    apply Int.le_floor.2
    push_cast
    exact add_le_add (Int.floor_le _) (Int.floor_le _)
  calc ⌊(n : ℚ) * r0⌋ + ⌊(n : ℚ) * r1⌋ ≤ ⌊(n : ℚ) * r0 + (n : ℚ) * r1⌋ := h1
  _ ≤ ⌊(n : ℚ)⌋ := Int.floor_le_floor hsum
  _ = (n : ℤ) := Int.floor_natCast n

/-- C1: for every pool and every tuple of non-negative ratios, the per-split
assignments of `split_dataset`, concatenated in split order, are exactly the
input pool: each input pair lands in exactly one split, with no duplication
and no omission. -/
theorem split_dataset_union_eq_pool {α : Type} [Inhabited α] (pool : List α)
    (r0 r1 r2 : ℚ) (h0 : 0 ≤ r0) (h1 : 0 ≤ r1) (h2 : 0 ≤ r2) :
    ((split_dataset pool SPLITS [r0, r1, r2]).map Prod.snd).flatten = pool := by
  have hk0 : 0 ≤ pyInt ((pool.length : ℚ) * r0) :=
    pyInt_nonneg (mul_nonneg (Nat.cast_nonneg _) h0)
  have hk1 : 0 ≤ pyInt ((pool.length : ℚ) * r1) :=
    pyInt_nonneg (mul_nonneg (Nat.cast_nonneg _) h1)
  rw [split_dataset_eq3]
  simp only [List.map_cons, List.map_nil, List.flatten_cons, List.flatten_nil]
  rw [List.append_nil,
    pySlice_append_pySliceFrom pool _ _ hk0 (by omega),
    pySlice_append_pySliceFrom pool 0 _ le_rfl hk0]
  simp [pySliceFrom, pyBound_zero]

/-- C1 witness: a concrete pool of three pairs and ratios (1/2, 1/4, 1/4). -/
theorem split_dataset_union_eq_pool_witness :
    (0 : ℚ) ≤ 1/2 ∧
      ((split_dataset [10, 20, 30] SPLITS [1/2, 1/4, 1/4]).map Prod.snd).flatten =
        [10, 20, 30] :=
  ⟨by norm_num,
   split_dataset_union_eq_pool [10, 20, 30] (1/2) (1/4) (1/4)
     (by norm_num) (by norm_num) (by norm_num)⟩

/-- C2: under a ratio tuple in the sense of the spec's data model
(non-negative fractions summing to 1), every split but the last receives
exactly `floor(N * ratio)` consecutive pairs starting at the running cursor,
and the last split takes all remaining pairs, of which there are
`N - floor(N*r0) - floor(N*r1)`. -/
theorem split_dataset_floor_sizes {α : Type} [Inhabited α] (pool : List α)
    (r0 r1 r2 : ℚ) (h0 : 0 ≤ r0) (h1 : 0 ≤ r1) (h2 : 0 ≤ r2)
    (hsum : r0 + r1 + r2 = 1) :
    split_dataset pool SPLITS [r0, r1, r2] =
      [("train", pool.take (⌊(pool.length : ℚ) * r0⌋).toNat),
       ("val", (pool.drop (⌊(pool.length : ℚ) * r0⌋).toNat).take
          (⌊(pool.length : ℚ) * r1⌋).toNat),
       ("test", pool.drop
          ((⌊(pool.length : ℚ) * r0⌋).toNat + (⌊(pool.length : ℚ) * r1⌋).toNat))] ∧
    (split_dataset pool SPLITS [r0, r1, r2]).map (fun p => p.2.length) =
      [(⌊(pool.length : ℚ) * r0⌋).toNat, (⌊(pool.length : ℚ) * r1⌋).toNat,
       pool.length -
         ((⌊(pool.length : ℚ) * r0⌋).toNat + (⌊(pool.length : ℚ) * r1⌋).toNat)] := by
  have hk0 : 0 ≤ ⌊(pool.length : ℚ) * r0⌋ :=
    Int.le_floor.2 (by exact_mod_cast mul_nonneg (Nat.cast_nonneg _) h0)
  have hk1 : 0 ≤ ⌊(pool.length : ℚ) * r1⌋ :=
    Int.le_floor.2 (by exact_mod_cast mul_nonneg (Nat.cast_nonneg _) h1)
  have hle : ⌊(pool.length : ℚ) * r0⌋ + ⌊(pool.length : ℚ) * r1⌋ ≤ (pool.length : ℤ) :=
    floor_add_floor_le_self (by linarith)
  have htn : (⌊(pool.length : ℚ) * r0⌋ + ⌊(pool.length : ℚ) * r1⌋).toNat =
      (⌊(pool.length : ℚ) * r0⌋).toNat + (⌊(pool.length : ℚ) * r1⌋).toNat :=
    Int.toNat_add hk0 hk1
  have hb0 : pyBound pool.length ⌊(pool.length : ℚ) * r0⌋ =
      (⌊(pool.length : ℚ) * r0⌋).toNat := by
    rw [pyBound_of_nonneg hk0]
    exact min_eq_left (Int.toNat_le.2 (by omega))
  have hb1 : pyBound pool.length
      (⌊(pool.length : ℚ) * r0⌋ + ⌊(pool.length : ℚ) * r1⌋) =
      (⌊(pool.length : ℚ) * r0⌋).toNat + (⌊(pool.length : ℚ) * r1⌋).toNat := by
    rw [pyBound_of_nonneg (by omega), htn]
    exact min_eq_left (by rw [← htn]; exact Int.toNat_le.2 hle)
  have hshape := split_dataset_eq3 pool r0 r1 r2
  rw [pyInt_of_nonneg (mul_nonneg (Nat.cast_nonneg _) h0),
    pyInt_of_nonneg (mul_nonneg (Nat.cast_nonneg _) h1)] at hshape
  constructor
  · rw [hshape]
    rw [pySlice, pySlice, pySliceFrom, pyBound_zero, hb0, hb1, List.drop_zero,
      List.drop_take]
    rw [Nat.add_sub_cancel_left]
  · rw [hshape]
    simp only [List.map_cons, List.map_nil, length_pySlice, length_pySliceFrom,
      pyBound_zero, hb0, hb1]
    congr 2
    omega

/-- C2 witness: the spec's own example, N = 10, ratios (0.8, 0.1, 0.1),
giving sizes (8, 1, 1). -/
theorem split_dataset_floor_sizes_witness :
    (0 : ℚ) ≤ 8/10 ∧ (8/10 : ℚ) + 1/10 + 1/10 = 1 ∧
      (split_dataset (List.range 10) SPLITS [8/10, 1/10, 1/10]).map
          (fun p => p.2.length) =
        [(⌊((List.range 10).length : ℚ) * (8/10)⌋).toNat,
         (⌊((List.range 10).length : ℚ) * (1/10)⌋).toNat,
         (List.range 10).length -
           ((⌊((List.range 10).length : ℚ) * (8/10)⌋).toNat +
            (⌊((List.range 10).length : ℚ) * (1/10)⌋).toNat)] :=
  ⟨by norm_num, by norm_num,
   (split_dataset_floor_sizes (List.range 10) (8/10) (1/10) (1/10)
     (by norm_num) (by norm_num) (by norm_num) (by norm_num)).2⟩

lemma lookup_val_getD {α : Type} (x y z : List α) :
    ((List.lookup "val" [("train", x), ("val", y), ("test", z)]).getD []) = y := by
  rfl

/-- C8: holding the train and test ratios fixed and not decreasing the
validation ratio never shrinks the validation split. -/
theorem val_split_size_monotone {α : Type} [Inhabited α] (pool : List α)
    (t v v' e : ℚ) (ht : 0 ≤ t) (hv : 0 ≤ v) (hvv' : v ≤ v') :
    (((split_dataset pool SPLITS [t, v, e]).lookup "val").getD []).length ≤
      (((split_dataset pool SPLITS [t, v', e]).lookup "val").getD []).length := by
  have hv' : 0 ≤ v' := le_trans hv hvv'
  have hk0 : 0 ≤ pyInt ((pool.length : ℚ) * t) :=
    pyInt_nonneg (mul_nonneg (Nat.cast_nonneg _) ht)
  have hkv : 0 ≤ pyInt ((pool.length : ℚ) * v) :=
    pyInt_nonneg (mul_nonneg (Nat.cast_nonneg _) hv)
  have hmono : pyInt ((pool.length : ℚ) * v) ≤ pyInt ((pool.length : ℚ) * v') := by
    rw [pyInt_of_nonneg (mul_nonneg (Nat.cast_nonneg _) hv),
      pyInt_of_nonneg (mul_nonneg (Nat.cast_nonneg _) hv')]
    exact Int.floor_le_floor (mul_le_mul_of_nonneg_left hvv' (Nat.cast_nonneg _))
  rw [split_dataset_eq3, split_dataset_eq3, lookup_val_getD, lookup_val_getD,
    length_pySlice, length_pySlice]
  exact Nat.sub_le_sub_right (pyBound_mono (by omega) (by omega) _) _

/-- C8 witness: N = 10, train ratio 1/2, validation ratio raised from 1/4 to
1/2 with test ratio 0 fixed. -/
theorem val_split_size_monotone_witness :
    (0 : ℚ) ≤ 1/2 ∧ (1/4 : ℚ) ≤ 1/2 ∧
      (((split_dataset (List.range 10) SPLITS [1/2, 1/4, 0]).lookup "val").getD
          []).length ≤
        (((split_dataset (List.range 10) SPLITS [1/2, 1/2, 0]).lookup "val").getD
          []).length :=
  ⟨by norm_num, by norm_num,
   val_split_size_monotone (List.range 10) (1/2) (1/4) (1/2) 0
     (by norm_num) (by norm_num) (by norm_num)⟩

/-- C3: `parse_args` and `main` perform no ratio validation. For the invalid
configuration `val = 3/4`, `test = 1/2` (so `val + test ≥ 1` and a negative
implied train ratio), partitioning still happens: on a 10-element pool the
loop produces overlapping splits (indices 5-7 land in both train and test),
and the full pipeline still discovers pairs, partitions them and produces
manifest data, contradicting "rejected before any processing begins". -/
theorem no_ratio_validation_eval :
    split_dataset (List.range 10) SPLITS [1 - 3/4 - 1/2, 3/4, 1/2] =
      [("train", [0, 1, 2, 3, 4, 5, 6, 7]), ("val", []),
       ("test", [5, 6, 7, 8, 9])] ∧
    (main_pipeline (fun l => l) ["rootA"] fs_single_png (3/4) (1/2) none "output").1 =
      [("train", []), ("val", []),
       ("test", [("rootA", "rootA/clean", "rootA/noisy", "x.png")])] := by
  constructor
  · rw [split_dataset_eq3]
    simp only [List.length_range]
    have e0 : pyInt (((10 : ℕ) : ℚ) * (1 - 3/4 - 1/2)) = -2 := by
      norm_num [pyInt, Int.ceil_neg]
    have e1 : pyInt (((10 : ℕ) : ℚ) * (3/4)) = 7 := by norm_num [pyInt]
    rw [e0, e1]
    decide
  · have hpool : (List.map (fun d => search_image_triplets fs_single_png d)
        ["rootA"]).flatten = [("rootA", "rootA/clean", "rootA/noisy", "x.png")] := by
      decide
    simp only [main_pipeline, hpool]
    rw [split_dataset_eq3]
    have e0 : pyInt ((([("rootA", "rootA/clean", "rootA/noisy",
        "x.png")] : List Triplet).length : ℚ) * (1 - 3/4 - 1/2)) = 0 := by
      norm_num [pyInt, Int.ceil_neg]
    have e1 : pyInt ((([("rootA", "rootA/clean", "rootA/noisy",
        "x.png")] : List Triplet).length : ℚ) * (3/4)) = 0 := by
      norm_num [pyInt]
    rw [e0, e1]
    decide

/-! Lemmas about the `sorted` embedding. -/

lemma mem_insertStr {a x : String} {l : List String} :
    a ∈ insertStr x l ↔ a = x ∨ a ∈ l := by
  induction l with
  | nil => simp [insertStr]
  | cons y ys ih =>
    rw [insertStr]
    by_cases h : x ≤ y
    · simp [h]
    · simp only [if_neg h, List.mem_cons, ih]
      tauto

lemma insertStr_perm (x : String) (l : List String) :
    (insertStr x l).Perm (x :: l) := by
  induction l with
  | nil => rfl
  | cons y ys ih =>
    rw [insertStr]
    by_cases h : x ≤ y
    · simp [h]
    · rw [if_neg h]
      exact List.Perm.trans (List.Perm.cons y ih) (List.Perm.swap x y ys)

lemma sortStrings_perm (l : List String) : (sortStrings l).Perm l := by
  induction l with
  | nil => rfl
  | cons x xs ih =>
    exact List.Perm.trans (insertStr_perm x (sortStrings xs)) (List.Perm.cons x ih)

lemma sorted_insertStr {x : String} {l : List String}
    (h : l.Sorted (· ≤ ·)) : (insertStr x l).Sorted (· ≤ ·) := by
  induction l with
  | nil => simp [insertStr]
  | cons y ys ih =>
    rw [List.sorted_cons] at h
    rw [insertStr]
    by_cases hxy : x ≤ y
    · rw [if_pos hxy, List.sorted_cons]
      refine ⟨fun b hb => ?_, List.sorted_cons.2 h⟩
      rcases List.mem_cons.1 hb with rfl | hb
      · exact hxy
      · exact le_trans hxy (h.1 b hb)
    · rw [if_neg hxy, List.sorted_cons]
      refine ⟨fun b hb => ?_, ih h.2⟩
      rcases mem_insertStr.1 hb with rfl | hb
      · exact le_of_not_le hxy
      · exact h.1 b hb

lemma sorted_sortStrings (l : List String) : (sortStrings l).Sorted (· ≤ ·) := by
  induction l with
  | nil => simp [sortStrings]
  | cons x xs ih => exact sorted_insertStr ih

/-- C9: for every filesystem and root, discovery yields exactly the filenames
present in both the `clean` and the `noisy` `*.png` listings — one pair per
such name (no duplicates), sorted lexicographically; a name present in only
one listing yields no pair (the membership equivalence), and every discovered
name carries the fixed `.png` extension filter. -/
theorem search_image_triplets_join_correct (fs : Filesystem) (imgs_root : String) :
    (∀ name : String,
      name ∈ (search_image_triplets fs imgs_root).map (fun p => p.2.2.2) ↔
        name ∈ search_images fs (pyJoin imgs_root "clean") ∧
          name ∈ search_images fs (pyJoin imgs_root "noisy")) ∧
    ((search_image_triplets fs imgs_root).map (fun p => p.2.2.2)).Nodup ∧
    ((search_image_triplets fs imgs_root).map (fun p => p.2.2.2)).Sorted (· ≤ ·) ∧
    (∀ p ∈ search_image_triplets fs imgs_root, glob_matches_png p.2.2.2 = true) := by
  have hmap : (search_image_triplets fs imgs_root).map (fun p => p.2.2.2) =
      sortStrings (((search_images fs (pyJoin imgs_root "clean")).inter
        (search_images fs (pyJoin imgs_root "noisy"))).dedup) := by
    simp only [search_image_triplets, List.map_map]
    exact List.map_id _
  refine ⟨fun name => ?_, ?_, ?_, fun p hp => ?_⟩
  · rw [hmap, (sortStrings_perm _).mem_iff, List.mem_dedup]
    exact List.mem_inter_iff
  · rw [hmap]
    exact (sortStrings_perm _).nodup_iff.2 (List.nodup_dedup _)
  · rw [hmap]
    exact sorted_sortStrings _
  · simp only [search_image_triplets, List.mem_map] at hp
    obtain ⟨n, hn, hpe⟩ := hp
    rw [(sortStrings_perm _).mem_iff, List.mem_dedup] at hn
    rw [← hpe]
    exact List.of_mem_filter (List.mem_inter_iff.1 hn).1

/-! Lemmas about splitting a path at its separators. -/

lemma two_le_length_splitOn_concat (c : Char) (l : List Char) :
    2 ≤ ((l ++ [c]).splitOn c).length := by
  induction l with
  | nil =>
    simp [List.splitOn, List.splitOnP_cons, List.splitOnP_nil]
  | cons a l ih =>
    rw [List.cons_append, List.splitOn, List.splitOnP_cons]
    by_cases h : (a == c) = true
    · rw [if_pos h, List.length_cons]
      have := List.length_pos.2 (List.splitOnP_ne_nil (· == c) (l ++ [c]))
      rw [List.splitOn] at ih
      omega
    · rw [if_neg h, List.length_modifyHead]
      exact ih

lemma getLast?_splitOn_concat (c : Char) (l : List Char) :
    ((l ++ [c]).splitOn c).getLast? = some [] := by
  induction l with
  | nil =>
    simp [List.splitOn, List.splitOnP_cons, List.splitOnP_nil]
  | cons a l ih =>
    have h2 := two_le_length_splitOn_concat c l
    rw [List.cons_append, List.splitOn, List.splitOnP_cons]
    rw [List.splitOn] at ih h2
    by_cases h : (a == c) = true
    · rw [if_pos h]
      obtain ⟨p, r, hr⟩ : ∃ p r, (l ++ [c]).splitOnP (· == c) = p :: r := by
        cases hx : (l ++ [c]).splitOnP (· == c) with
        | nil => exact absurd hx (List.splitOnP_ne_nil _ _)
        | cons p r => exact ⟨p, r, rfl⟩
      rw [hr] at ih ⊢
      cases r with
      | nil => simp [hr] at h2
      | cons q rest => rw [List.getLast?_cons_cons]; exact ih
    · rw [if_neg h]
      obtain ⟨p, r, hr⟩ : ∃ p r, (l ++ [c]).splitOnP (· == c) = p :: r := by
        cases hx : (l ++ [c]).splitOnP (· == c) with
        | nil => exact absurd hx (List.splitOnP_ne_nil _ _)
        | cons p r => exact ⟨p, r, rfl⟩
      rw [hr] at ih ⊢
      cases r with
      | nil => simp [hr] at h2
      | cons q rest =>
        rw [List.modifyHead_cons, List.getLast?_cons_cons]
        rw [List.getLast?_cons_cons] at ih
        exact ih

lemma pySplitLast_concat_sep (s : String) : pySplitLast (s ++ "/") = "" := by
  rw [pySplitLast, String.data_append]
  rw [show ("/" : String).data = ['/'] from rfl, getLast?_splitOn_concat]
  rfl

/-- C5 counterexample: the root `"data/rootA/"`, given with a trailing
separator, tags its discovered pair with the empty string — not with the
root's base name `"rootA"` as the claim states. -/
theorem collection_id_trailing_sep_counterexample :
    search_image_triplets fs_single_png "data/rootA/" =
      [("", "data/rootA/clean", "data/rootA/noisy", "x.png")] ∧
    pySplitLast "data/rootA/" = "" ∧ ("" : String) ≠ "rootA" := by
  refine ⟨by decide, by decide, by decide⟩

/-- C5 amended: every pair is tagged with the part of the root path after the
last separator — the root's base name for roots without a trailing separator,
but the empty string for roots ending in one. -/
theorem collection_id_is_after_last_sep (fs : Filesystem) (imgs_root : String)
    (p : Triplet) (hp : p ∈ search_image_triplets fs imgs_root) :
    p.1 = pySplitLast imgs_root ∧ pySplitLast (imgs_root ++ "/") = "" := by
  constructor
  · simp only [search_image_triplets, List.mem_map] at hp
    obtain ⟨n, hn, hpe⟩ := hp
    rw [← hpe]
  · exact pySplitLast_concat_sep imgs_root

/-- C5 witness: a concrete root without trailing separator. -/
theorem collection_id_is_after_last_sep_witness :
    (("r", "r/clean", "r/noisy", "x.png") : Triplet) ∈
        search_image_triplets fs_single_png "r" ∧
      ((("r", "r/clean", "r/noisy", "x.png") : Triplet).1 = pySplitLast "r" ∧
        pySplitLast ("r" ++ "/") = "") :=
  ⟨by decide, collection_id_is_after_last_sep fs_single_png "r" _ (by decide)⟩

/-- C6: when the defect-detection collaborator returns no contours for a
pair, the polygon document has an empty object list and the label image is
the all-background image of the noisy image's dimensions. -/
theorem gen_defects_no_contours (find_defects : Img → Img → List Contour)
    (inside : Contour → ℕ → ℕ → Bool) (imread : String → Img)
    (oi ol : String) (tr : Triplet)
    (h : find_defects (imread (pyJoin tr.2.1 tr.2.2.2))
      (imread (pyJoin tr.2.2.1 tr.2.2.2)) = []) :
    (gen_defects_record find_defects inside imread oi ol tr).objects = [] ∧
    (gen_defects_record find_defects inside imread oi ol tr).label_img =
      all_background (imread (pyJoin tr.2.2.1 tr.2.2.2)).height
        (imread (pyJoin tr.2.2.1 tr.2.2.2)).width := by
  constructor
  · simp [gen_defects_record, h]
  · simp only [gen_defects_record, h]
    ext y x
    · rfl
    · rfl
    · simp [drawContours, zeros_like, all_background]

/-- C6 witness: a collaborator that always reports no defects. -/
theorem gen_defects_no_contours_witness :
    find_defects_none (imread_const (pyJoin "ca" "x.png"))
        (imread_const (pyJoin "na" "x.png")) = [] ∧
      ((gen_defects_record find_defects_none inside_never imread_const "oi" "ol"
          ("a", "ca", "na", "x.png")).objects = [] ∧
        (gen_defects_record find_defects_none inside_never imread_const "oi" "ol"
            ("a", "ca", "na", "x.png")).label_img =
          all_background (imread_const (pyJoin "na" "x.png")).height
            (imread_const (pyJoin "na" "x.png")).width) :=
  ⟨rfl, gen_defects_no_contours find_defects_none inside_never imread_const
    "oi" "ol" ("a", "ca", "na", "x.png") rfl⟩

/-- C7: the manifest for a split is written at
`<output_root>/list/<split>.lst`; an empty split yields an (existing) empty
file with no characters; and for newline-free paths the written text splits
back, on the newline separator, into exactly one `raw<TAB>label` line per
pair, in input order. -/
theorem gen_lst_manifest (output_root split : String)
    (path_pairs : List (String × String)) :
    (gen_lst path_pairs (output_lst_dir output_root) split).1 =
      pyJoin (pyJoin output_root "list") (split ++ ".lst") ∧
    (path_pairs = [] → (gen_lst path_pairs (output_lst_dir output_root) split).2 = []) ∧
    ((∀ p ∈ path_pairs, '\n' ∉ p.1.data ∧ '\n' ∉ p.2.data) → path_pairs ≠ [] →
      ((gen_lst path_pairs (output_lst_dir output_root) split).2).splitOn '\n' =
        path_pairs.map (fun p => p.1.data ++ '\t' :: p.2.data)) := by
  refine ⟨rfl, fun h => by simp [gen_lst, h, List.intercalate], fun hnl hne => ?_⟩
  rw [gen_lst]
  apply List.splitOn_intercalate
  · intro l hl
    obtain ⟨p, hp, rfl⟩ := List.mem_map.1 hl
    have := hnl p hp
    simp only [List.mem_append, List.mem_cons]
    rintro (h1 | h2 | h3)
    · exact this.1 h1
    · exact absurd h2 (by decide)
    · exact this.2 h3
  · simpa using hne

/-- C7 witness: a one-pair manifest. -/
theorem gen_lst_manifest_witness :
    (∀ p ∈ [(("a" : String), ("b" : String))], '\n' ∉ p.1.data ∧ '\n' ∉ p.2.data) ∧
      ((gen_lst [("a", "b")] (output_lst_dir "out") "train").2).splitOn '\n' =
        [(("a" : String), ("b" : String))].map (fun p => p.1.data ++ '\t' :: p.2.data) :=
  ⟨by decide, (gen_lst_manifest "out" "train" [("a", "b")]).2.2 (by decide) (by decide)⟩

/-- C10: two distinct pairs — collection `a` with file `b_c.png` and
collection `a_b` with file `c.png` — share the derived identifier `a_b_c`,
hence all three artifact paths coincide, and both pairs can land in the same
split (here: both in `train` under ratios (1, 0, 0)), so the later pair's
artifacts overwrite the earlier pair's. -/
theorem artifact_name_collision :
    pair_collection_a ≠ pair_collection_a_b ∧
    img_id_of "a" "b_c.png" = img_id_of "a_b" "c.png" ∧
    raw_img_path (output_imgs_dir "train") "a" "b_c.png" =
      raw_img_path (output_imgs_dir "train") "a_b" "c.png" ∧
    label_dict_path (output_labels_dir "train") "a" "b_c.png" =
      label_dict_path (output_labels_dir "train") "a_b" "c.png" ∧
    label_img_path (output_labels_dir "train") "a" "b_c.png" =
      label_img_path (output_labels_dir "train") "a_b" "c.png" ∧
    split_dataset [pair_collection_a, pair_collection_a_b] SPLITS [1, 0, 0] =
      [("train", [pair_collection_a, pair_collection_a_b]), ("val", []), ("test", [])] := by
  refine ⟨by decide, by decide, by decide, by decide, by decide, ?_⟩
  rw [split_dataset_eq3]
  have e0 : pyInt ((([pair_collection_a, pair_collection_a_b] :
      List Triplet).length : ℚ) * 1) = 2 := by
    norm_num [pyInt]
  have e1 : pyInt ((([pair_collection_a, pair_collection_a_b] :
      List Triplet).length : ℚ) * 0) = 0 := by
    norm_num [pyInt]
  rw [e0, e1]
  decide

/-- C4: the pipeline is deterministic — for any seed-indexed deterministic
shuffle family (the seeded Mersenne Twister is such a family), two runs with
the same seed, input roots, filesystem, ratios, cap and output root produce
identical split assignments and identical manifest files. -/
theorem main_pipeline_deterministic (shuffle_of : ℤ → List Triplet → List Triplet)
    (seed1 seed2 : ℤ) (dirs1 dirs2 : List String) (fs1 fs2 : Filesystem)
    (v1 v2 t1 t2 : ℚ) (lim1 lim2 : Option ℤ) (out1 out2 : String)
    (hseed : seed1 = seed2) (hdirs : dirs1 = dirs2) (hfs : fs1 = fs2)
    (hv : v1 = v2) (ht : t1 = t2) (hlim : lim1 = lim2) (hout : out1 = out2) :
    main_pipeline (shuffle_of seed1) dirs1 fs1 v1 t1 lim1 out1 =
      main_pipeline (shuffle_of seed2) dirs2 fs2 v2 t2 lim2 out2 := by
  subst hseed hdirs hfs hv ht hlim hout
  rfl

/-- C4 witness: two runs at the program's default seed 9487 and ratios. -/
theorem main_pipeline_deterministic_witness :
    (9487 : ℤ) = 9487 ∧
      main_pipeline (shuffle_family_rev 9487) ["r"] fs_single_png (1/10) (1/10)
          none "output" =
        main_pipeline (shuffle_family_rev 9487) ["r"] fs_single_png (1/10) (1/10)
          none "output" :=
  ⟨rfl, main_pipeline_deterministic shuffle_family_rev 9487 9487 ["r"] ["r"]
    fs_single_png fs_single_png (1/10) (1/10) (1/10) (1/10) none none
    "output" "output" rfl rfl rfl rfl rfl rfl rfl⟩
